import Mathlib

/-!
Verification of the chat stream decoder and session reconciler of this
repository.  Strings from the source are embedded as lists of characters
(`Str`).  The decoder definitions follow `streamChatResponse` and
`fetchSSEData`; the reconciler definitions follow the `Chat` component
(`handleSendMessage`, `saveRename`, `executeDelete`).
-/

abbrev Str := List Char

/-- Helper for the splitter: push a character onto the first part of a
split result (creating a singleton part when the result is empty). -/
def consHead (c : Char) : List Str → List Str
  | [] => [[c]]
  | p :: ps => (c :: p) :: ps

/-- Embeds the JavaScript `buffer.split('\n\n')`: greedy left-to-right,
non-overlapping split of a string on the two-character separator made of
two newline characters.  The result is never empty; the final element is
the remainder after the last separator occurrence. -/
def splitNN : Str → List Str
  | [] => [[]]
  | [c] => [[c]]
  | c1 :: c2 :: rest =>
    if c1 = '\n' ∧ c2 = '\n' then [] :: splitNN rest
    else consHead c1 (splitNN (c2 :: rest))

theorem consHead_ne_nil (c : Char) (l : List Str) : consHead c l ≠ [] := by
  cases l <;> simp [consHead]

theorem splitNN_ne_nil (s : Str) : splitNN s ≠ [] := by
  induction s using splitNN.induct with
  | case1 => simp [splitNN]
  | case2 c => simp [splitNN]
  | case3 c1 c2 rest h ih => simp [splitNN, h]
  | case4 c1 c2 rest h ih => simp [splitNN, h, consHead_ne_nil]

/-- A one-part split result means the separator never occurred, so the
single part is the whole input. -/
theorem splitNN_singleton (s : Str) (p : Str) (h : splitNN s = [p]) : p = s := by
  induction s using splitNN.induct generalizing p with
  | case1 =>
    simp [splitNN] at h
    exact h
  | case2 c =>
    simp [splitNN] at h
    simp [h]
  | case3 c1 c2 rest hc ih =>
    rw [splitNN, if_pos hc] at h
    exact absurd (List.cons_eq_cons.mp h).2 (splitNN_ne_nil rest)
  | case4 c1 c2 rest hc ih =>
    rw [splitNN, if_neg hc] at h
    cases hl : splitNN (c2 :: rest) with
    | nil => exact absurd hl (splitNN_ne_nil _)
    | cons q qs =>
      rw [hl, consHead] at h
      obtain ⟨h1, h2⟩ := List.cons_eq_cons.mp h
      subst h2
      have := ih q (by rw [hl])
      simp [← h1, this]

theorem getLastD_irrel {α : Type} (d d' : α) (l : List α) (h : l ≠ []) :
    l.getLastD d = l.getLastD d' := by
  cases l with
  | nil => exact absurd rfl h
  | cons a t => rw [List.getLastD_cons, List.getLastD_cons]

theorem getLastD_append_right {α : Type} (l1 l2 : List α) (d : α) (h : l2 ≠ []) :
    (l1 ++ l2).getLastD d = l2.getLastD d := by
  induction l1 with
  | nil => rfl
  | cons a t ih =>
    have hne : t ++ l2 ≠ [] := by
      intro hc
      exact h (List.append_eq_nil.mp hc).2
    rw [List.cons_append, List.getLastD_cons, getLastD_irrel a d (t ++ l2) hne]
    exact ih

theorem dropLast_append_right {α : Type} (l1 l2 : List α) (h : l2 ≠ []) :
    (l1 ++ l2).dropLast = l1 ++ l2.dropLast := by
  induction l1 with
  | nil => rfl
  | cons a t ih =>
    have hne : t ++ l2 ≠ [] := by
      intro hc
      exact h (List.append_eq_nil.mp hc).2
    cases ht : t ++ l2 with
    | nil => exact absurd ht hne
    | cons b u =>
      rw [List.cons_append, ht, List.dropLast_cons₂, ← ht, ih, List.cons_append]

/-- Key compositionality of the greedy splitter: splitting `x ++ y` is the
same as splitting `x`, keeping all complete parts, and re-splitting the
trailing partial part prepended to `y`.  This is exactly the buffer
discipline of the decoder loop. -/
theorem splitNN_append (x : Str) : ∀ y : Str,
    splitNN (x ++ y) =
      (splitNN x).dropLast ++ splitNN ((splitNN x).getLastD [] ++ y) := by
  induction x using splitNN.induct with
  | case1 => intro y; simp [splitNN]
  | case2 c => intro y; simp [splitNN, consHead]
  | case3 c1 c2 rest hc ih =>
    intro y
    obtain ⟨h1, h2⟩ := hc
    subst h1; subst h2
    have hS : splitNN ('\n' :: '\n' :: rest) = [] :: splitNN rest := by
      rw [splitNN, if_pos ⟨rfl, rfl⟩]
    have hLHS : splitNN (('\n' :: '\n' :: rest) ++ y) = [] :: splitNN (rest ++ y) := by
      rw [List.cons_append, List.cons_append, splitNN, if_pos ⟨rfl, rfl⟩]
    rw [hLHS, ih y, hS]
    have hne := splitNN_ne_nil rest
    cases hr : splitNN rest with
    | nil => exact absurd hr hne
    | cons p ps =>
      simp only [List.dropLast_cons₂, List.cons_append, List.getLastD_cons]
  | case4 c1 c2 rest hc ih =>
    intro y
    have hstep : ∀ t : Str, splitNN (c1 :: c2 :: t) = consHead c1 (splitNN (c2 :: t)) := by
      intro t; rw [splitNN, if_neg hc]
    have hLHS : splitNN ((c1 :: c2 :: rest) ++ y) = consHead c1 (splitNN ((c2 :: rest) ++ y)) := by
      simp only [List.cons_append]
      exact hstep (rest ++ y)
    rw [hLHS, ih y, hstep rest]
    cases hl : splitNN (c2 :: rest) with
    | nil => exact absurd hl (splitNN_ne_nil _)
    | cons p ps =>
      cases ps with
      | nil =>
        have hp : p = c2 :: rest := splitNN_singleton _ _ hl
        subst hp
        simp only [consHead, List.dropLast_single, List.nil_append,
          List.getLastD_cons, List.getLastD_nil]
        rw [List.cons_append]
        exact (hstep (rest ++ y)).symm
      | cons q qs =>
        simp only [consHead, List.dropLast_cons₂, List.cons_append, List.getLastD_cons]

/-- Embeds the JavaScript `part.split('\n')` used for the lines of one
event block. -/
def splitNL : Str → List Str
  | [] => [[]]
  | c :: rest =>
    if c = '\n' then [] :: splitNL rest
    else consHead c (splitNL rest)

/-- Embeds the JavaScript `line.startsWith(pat)`. -/
def startsWithCL : Str → Str → Bool
  | _, [] => true
  | [], _ :: _ => false
  | c :: s, p :: ps => c == p && startsWithCL s ps

/-- Embeds the JavaScript `s.trim()` (leading and trailing whitespace
removed). -/
def trimCL (s : Str) : Str :=
  (((s.dropWhile Char.isWhitespace).reverse).dropWhile Char.isWhitespace).reverse

/-- The classified events of the chat-mode decoder, as they stand at the
classification point of `streamChatResponse` (event type together with the
assembled raw `data` payload, before any JSON interpretation). -/
inductive SSEEvent : Type
  | chunkEv (data : Str)
  | vizEv (data : Str)
  | errorEv (data : Str)
deriving DecidableEq, Repr

/-- Embeds the per-line field scan of `streamChatResponse` (lines 140-151):
a fold over the lines of one block returning the last declared event type
(trimmed text after the `event: ` marker) and the accumulated data payload.
A `data: ` line appends its content; a newline separator is inserted only
when the accumulator is a nonempty string, exactly like the JavaScript
`data += (data ? '\n' : '') + line.slice(6)`. -/
def blockFields (part : Str) : Option Str × Str :=
  (splitNL part).foldl
    (fun acc line =>
      if startsWithCL line ("event: ".toList) then
        (some (trimCL (line.drop 7)), acc.2)
      else if startsWithCL line ("data: ".toList) then
        (acc.1, if acc.2 = [] then line.drop 6 else acc.2 ++ '\n' :: line.drop 6)
      else acc)
    (none, [])

/-- Embeds the classification of one complete block in `streamChatResponse`
(lines 137-167): blank (whitespace-only) blocks are skipped; a `chunk` or
`visualization` block produces an event only when its assembled data is
nonempty (the JavaScript truthiness test `&& data`); an `error` block
always produces an event. -/
def parseEventBlock (part : Str) : List SSEEvent :=
  if trimCL part = [] then []
  else
    let fields := blockFields part
    if fields.1 = some ("chunk".toList) then
      if fields.2 = [] then [] else [SSEEvent.chunkEv fields.2]
    else if fields.1 = some ("visualization".toList) then
      if fields.2 = [] then [] else [SSEEvent.vizEv fields.2]
    else if fields.1 = some ("error".toList) then [SSEEvent.errorEv fields.2]
    else []

/-- One read iteration of the chat-mode decoder loop (lines 130-168):
append the incoming chunk to the buffer, split on blank lines, keep the
final (possibly incomplete) part as the new buffer and classify every
complete part in order. -/
def feed (buf chunk : Str) : Str × List SSEEvent :=
  let parts := splitNN (buf ++ chunk)
  (parts.getLastD [], (parts.dropLast).flatMap parseEventBlock)

/-- Runs the decoder loop over a whole sequence of read chunks, starting
from a given buffer, collecting the delivered events in order. -/
def feedList (buf : Str) : List Str → Str × List SSEEvent
  | [] => (buf, [])
  | c :: cs =>
    let fe := feed buf c
    let rest := feedList fe.1 cs
    (rest.1, fe.2 ++ rest.2)

/-- The ordered event sequence the chat-mode decoder delivers for a given
sequence of read chunks (initial buffer empty; the trailing incomplete
fragment left in the buffer at end of stream is discarded, as in the
source). -/
def decodeChunks (chunks : List Str) : List SSEEvent :=
  (feedList [] chunks).2

theorem feed_append (buf a b : Str) :
    feed buf (a ++ b) =
      ((feed (feed buf a).1 b).1, (feed buf a).2 ++ (feed (feed buf a).1 b).2) := by
  have hx : buf ++ (a ++ b) = (buf ++ a) ++ b := (List.append_assoc buf a b).symm
  have hsp := splitNN_append (buf ++ a) b
  have hne : splitNN ((splitNN (buf ++ a)).getLastD [] ++ b) ≠ [] := splitNN_ne_nil _
  simp only [feed, hx, hsp, Prod.mk.injEq]
  constructor
  · rw [getLastD_append_right _ _ _ hne]
  · rw [dropLast_append_right _ _ hne, List.flatMap_append]

theorem feedList_cons (buf c : Str) (cs : List Str) :
    feedList buf (c :: cs) =
      ((feedList (feed buf c).1 cs).1, (feed buf c).2 ++ (feedList (feed buf c).1 cs).2) := rfl

theorem feedList_eq_feed_flatten (cs : List Str) (h : cs ≠ []) : ∀ buf : Str,
    feedList buf cs = feed buf cs.flatten := by
  induction cs with
  | nil => exact absurd rfl h
  | cons c cs ih =>
    intro buf
    cases cs with
    | nil => simp [feedList, List.flatten]
    | cons d ds =>
      have ih2 := ih (by simp) (feed buf c).1
      rw [feedList_cons, ih2]
      conv_rhs => rw [List.flatten_cons]
      rw [feed_append buf c ((d :: ds).flatten)]

theorem decodeChunks_eq (cs : List Str) :
    decodeChunks cs = (feed [] cs.flatten).2 := by
  cases cs with
  | nil => rfl
  | cons c cs => rw [decodeChunks, feedList_eq_feed_flatten (c :: cs) (by simp) []]

/-- Hexadecimal digit value, for JSON unicode escapes. -/
def hexVal (c : Char) : Option Nat :=
  if '0' ≤ c ∧ c ≤ '9' then some (c.toNat - '0'.toNat)
  else if 'a' ≤ c ∧ c ≤ 'f' then some (c.toNat - 'a'.toNat + 10)
  else if 'A' ≤ c ∧ c ≤ 'F' then some (c.toNat - 'A'.toNat + 10)
  else none

/-- JSON whitespace characters. -/
def isJsonWs (c : Char) : Bool := c = ' ' || c = '\t' || c = '\n' || c = '\r'

/-- Result of the JSON payload model: a string value with its decoded
contents, or any other successfully parsed JSON value. -/
inductive JsVal : Type
  | jstr (s : Str)
  | jother
deriving DecidableEq, Repr

/-- Parses the body of a JSON string literal (after the opening quote),
returning the decoded contents and the remaining input after the closing
quote. -/
def jsonStrBody : Nat → Str → Option (Str × Str)
  | 0, _ => none
  | _, [] => none
  | f+1, c :: r =>
    if c = '"' then some ([], r)
    else if c = '\\' then
      match r with
      | [] => none
      | e :: r2 =>
        let dec : Option (Char × Str) :=
          if e = '"' then some ('"', r2)
          else if e = '\\' then some ('\\', r2)
          else if e = '/' then some ('/', r2)
          else if e = 'n' then some ('\n', r2)
          else if e = 't' then some ('\t', r2)
          else if e = 'r' then some ('\r', r2)
          else if e = 'b' then some (Char.ofNat 8, r2)
          else if e = 'f' then some (Char.ofNat 12, r2)
          else if e = 'u' then
            match r2 with
            | a :: b :: c2 :: d :: r3 =>
              match hexVal a, hexVal b, hexVal c2, hexVal d with
              | some ha, some hb, some hc, some hd =>
                some (Char.ofNat (((ha * 16 + hb) * 16 + hc) * 16 + hd), r3)
              | _, _, _, _ => none
            | _ => none
          else none
        match dec with
        | none => none
        | some (ch, rest) =>
          match jsonStrBody f rest with
          | none => none
          | some (s, rest2) => some (ch :: s, rest2)
    else if c.toNat < 32 then none
    else
      match jsonStrBody f r with
      | none => none
      | some (s, rest) => some (c :: s, rest)

/-- Consumes one or more decimal digits. -/
def jsonDigits (cs : Str) : Option Str :=
  if cs.takeWhile Char.isDigit = [] then none else some (cs.dropWhile Char.isDigit)

/-- Optional fraction and exponent of a JSON number. -/
def jsonNumTail (cs : Str) : Option Str :=
  let afterFrac : Option Str :=
    match cs with
    | '.' :: r => jsonDigits r
    | _ => some cs
  match afterFrac with
  | none => none
  | some cs2 =>
    match cs2 with
    | e :: r =>
      if e = 'e' ∨ e = 'E' then
        let r2 : Str := match r with
          | s :: r3 => if s = '+' ∨ s = '-' then r3 else r
          | [] => r
        jsonDigits r2
      else some cs2
    | [] => some cs2

/-- Consumes one JSON number. -/
def jsonNumber (cs : Str) : Option Str :=
  let cs1 : Str := match cs with
    | '-' :: r => r
    | _ => cs
  match cs1 with
  | '0' :: r => jsonNumTail r
  | c :: r =>
    if c.isDigit ∧ c ≠ '0' then jsonNumTail (r.dropWhile Char.isDigit) else none
  | [] => none

mutual

/-- Fueled recursive-descent model of `JSON.parse`: consumes one JSON value
and returns it (collapsed to `jstr` or `jother`) with the remaining
input. -/
def jsonValue : Nat → Str → Option (JsVal × Str)
  | 0, _ => none
  | f+1, cs =>
    match cs.dropWhile isJsonWs with
    | '"' :: r =>
      match jsonStrBody (r.length + 1) r with
      | some (s, rest) => some (JsVal.jstr s, rest)
      | none => none
    | 't' :: 'r' :: 'u' :: 'e' :: r => some (JsVal.jother, r)
    | 'f' :: 'a' :: 'l' :: 's' :: 'e' :: r => some (JsVal.jother, r)
    | 'n' :: 'u' :: 'l' :: 'l' :: r => some (JsVal.jother, r)
    | '[' :: r =>
      match jsonArrTail f r true with
      | some rest => some (JsVal.jother, rest)
      | none => none
    | '{' :: r =>
      match jsonObjTail f r true with
      | some rest => some (JsVal.jother, rest)
      | none => none
    | cs2 =>
      match jsonNumber cs2 with
      | some rest => some (JsVal.jother, rest)
      | none => none

/-- Array elements after the opening bracket (or after a comma). -/
def jsonArrTail : Nat → Str → Bool → Option Str
  | 0, _, _ => none
  | f+1, cs, first =>
    match cs.dropWhile isJsonWs with
    | ']' :: r => if first then some r else none
    | cs2 =>
      match jsonValue f cs2 with
      | none => none
      | some (_, rest) => jsonArrSep f rest

/-- After an array element: closing bracket or a comma and more elements. -/
def jsonArrSep : Nat → Str → Option Str
  | 0, _ => none
  | f+1, cs =>
    match cs.dropWhile isJsonWs with
    | ']' :: r => some r
    | ',' :: r => jsonArrTail f r false
    | _ => none

/-- Object members after the opening brace (or after a comma). -/
def jsonObjTail : Nat → Str → Bool → Option Str
  | 0, _, _ => none
  | f+1, cs, first =>
    match cs.dropWhile isJsonWs with
    | '}' :: r => if first then some r else none
    | '"' :: r =>
      match jsonStrBody (r.length + 1) r with
      | none => none
      | some (_, rest) =>
        match rest.dropWhile isJsonWs with
        | ':' :: r2 =>
          match jsonValue f r2 with
          | none => none
          | some (_, rest2) => jsonObjSep f rest2
        | _ => none
    | _ => none

/-- After an object member: closing brace or a comma and more members. -/
def jsonObjSep : Nat → Str → Option Str
  | 0, _ => none
  | f+1, cs =>
    match cs.dropWhile isJsonWs with
    | '}' :: r => some r
    | ',' :: r => jsonObjTail f r false
    | _ => none

end

/-- Model of `JSON.parse` on a whole payload: one JSON value with nothing
but whitespace after it; `none` models a thrown parse error. -/
def jsonParse (cs : Str) : Option JsVal :=
  match jsonValue (2 * cs.length + 4) cs with
  | some (v, rest) => if rest.dropWhile isJsonWs = [] then some v else none
  | none => none

/-- Embeds the chunk branch of `streamChatResponse` (lines 153-159): the
payload is JSON-decoded when possible and used as raw text otherwise.  A
JSON string payload decodes to its contents; for a payload that parses as a
non-string JSON value the browser would coerce the decoded value when
appending (no claim depends on that case) and the raw payload is used
here. -/
def chunkCallbackText (d : Str) : Str :=
  match jsonParse d with
  | some (JsVal.jstr s) => s
  | _ => d

/-- Lower-case hexadecimal digit. -/
def hexDigit (n : Nat) : Char :=
  if n < 10 then Char.ofNat ('0'.toNat + n) else Char.ofNat ('a'.toNat + n - 10)

/-- Escaping of one character inside `JSON.stringify` of a string. -/
def jsEscapeChar (c : Char) : Str :=
  if c = '"' then ['\\', '"']
  else if c = '\\' then ['\\', '\\']
  else if c = '\n' then ['\\', 'n']
  else if c = '\t' then ['\\', 't']
  else if c = '\r' then ['\\', 'r']
  else if c = Char.ofNat 8 then ['\\', 'b']
  else if c = Char.ofNat 12 then ['\\', 'f']
  else if c.toNat < 32 then ['\\', 'u', '0', '0', hexDigit (c.toNat / 16), hexDigit (c.toNat % 16)]
  else [c]

/-- Model of `JSON.stringify` applied to a string value. -/
def jsStringifyStr (s : Str) : Str := '"' :: s.flatMap jsEscapeChar ++ ['"']

/-- Embeds the error branch (line 166): the inline marker text appended for
an error event. -/
def errMarker (d : Str) : Str := "\n[Error: ".toList ++ jsStringifyStr d ++ "]".toList

/-- A consumer-callback invocation of the chat-mode decoder: text appended
to the running reply, or a visualization payload. -/
inductive CbEvent : Type
  | text (t : Str)
  | viz (v : Str)
deriving DecidableEq, Repr

/-- The consumer-callback invocation produced by one classified event
(lines 153-167): a chunk delivers its decoded text; a visualization is
delivered only when its payload is valid JSON (a decode failure is logged
and the event dropped); an error always delivers its inline marker.  The
visualization payload is carried as its raw text. -/
def eventCallback : SSEEvent → Option CbEvent
  | SSEEvent.chunkEv d => some (CbEvent.text (chunkCallbackText d))
  | SSEEvent.vizEv d => if (jsonParse d).isSome then some (CbEvent.viz d) else none
  | SSEEvent.errorEv d => some (CbEvent.text (errMarker d))

/-- C1: for every sequence of stream chunks and every re-splitting of that
sequence across read boundaries, the chat-mode decoder delivers the
identical ordered sequence of classified events (same types, same
payloads, same order): the delivered sequence depends only on the
concatenation of the read chunks. -/
theorem c1_chunk_boundary_independence (cs cs' : List Str)
    (h : cs.flatten = cs'.flatten) : decodeChunks cs = decodeChunks cs' := by
  rw [decodeChunks_eq, decodeChunks_eq, h]

theorem c1_chunk_boundary_independence_witness :
    (["event: chunk\ndata: hi\n\nevent: error\ndata: oops\n\n".toList].flatten
        = ["event: chu".toList, "nk\ndata: hi\n\nev".toList, "".toList,
            "ent: error\ndata: oops\n\n".toList].flatten)
    ∧ decodeChunks ["event: chunk\ndata: hi\n\nevent: error\ndata: oops\n\n".toList]
        = decodeChunks ["event: chu".toList, "nk\ndata: hi\n\nev".toList, "".toList,
            "ent: error\ndata: oops\n\n".toList] :=
  ⟨by decide, c1_chunk_boundary_independence _ _ (by decide)⟩

theorem startsWithCL_iff (p : Str) : ∀ s : Str,
    startsWithCL s p = true ↔ ∃ t, s = p ++ t := by
  induction p with
  | nil =>
    intro s
    constructor
    · intro _; exact ⟨s, rfl⟩
    · intro _; cases s <;> rfl
  | cons pc pr ih =>
    intro s
    cases s with
    | nil =>
      simp only [startsWithCL, List.cons_append]
      constructor
      · intro h; exact absurd h (by simp)
      · rintro ⟨t, ht⟩; exact absurd ht (by simp)
    | cons c r =>
      simp only [startsWithCL, Bool.and_eq_true, beq_iff_eq]
      constructor
      · rintro ⟨hc, hs⟩
        obtain ⟨t, ht⟩ := (ih r).mp hs
        exact ⟨t, by simp [hc, ht]⟩
      · rintro ⟨t, ht⟩
        rw [List.cons_append] at ht
        obtain ⟨h1, h2⟩ := List.cons_eq_cons.mp ht
        exact ⟨h1, (ih r).mpr ⟨t, h2⟩⟩

/-- The contents of the `data: ` lines of a block, in original order (each
such line minus its six-character marker), as seen by the line scan of the
decoder; lines taken by the `event: ` branch are excluded as in the
source. -/
def dataLineContents (part : Str) : List Str :=
  (splitNL part).filterMap
    (fun line =>
      if startsWithCL line ("event: ".toList) then none
      else if startsWithCL line ("data: ".toList) then some (line.drop 6)
      else none)

/-- Joining a list of lines with a single newline separator between
consecutive lines. -/
def joinNL : List Str → Str
  | [] => []
  | [x] => x
  | x :: y :: xs => x ++ '\n' :: joinNL (y :: xs)

/-- Modelled from the spec: the payload the spec promises for a block, the
`data: ` line contents joined in original order with a single newline
separator between consecutive lines. -/
def specDataJoined (part : Str) : Str := joinNL (dataLineContents part)

/-- The data accumulation step of the decoder, isolated: a new content is
appended with a newline separator only when the accumulator is nonempty. -/
def dataFold (cs : List Str) : Str :=
  cs.foldl (fun d c => if d = [] then c else d ++ '\n' :: c) []

theorem blockFields_snd_eq_dataFold (part : Str) :
    (blockFields part).2 = dataFold (dataLineContents part) := by
  rw [blockFields, dataLineContents, dataFold]
  generalize splitNL part = lines
  suffices h : ∀ (et : Option Str) (d : Str),
      (lines.foldl
        (fun acc line =>
          if startsWithCL line ("event: ".toList) then
            (some (trimCL (line.drop 7)), acc.2)
          else if startsWithCL line ("data: ".toList) then
            (acc.1, if acc.2 = [] then line.drop 6 else acc.2 ++ '\n' :: line.drop 6)
          else acc)
        (et, d)).2 =
      (lines.filterMap
        (fun line =>
          if startsWithCL line ("event: ".toList) then none
          else if startsWithCL line ("data: ".toList) then some (line.drop 6)
          else none)).foldl (fun d c => if d = [] then c else d ++ '\n' :: c) d by
    exact h none []
  induction lines with
  | nil => intro et d; rfl
  | cons l ls ih =>
    intro et d
    by_cases he : startsWithCL l ("event: ".toList) = true
    · simp only [List.foldl_cons, List.filterMap_cons, he, if_pos, if_true]
      exact ih _ d
    · by_cases hd : startsWithCL l ("data: ".toList) = true
      · simp only [List.foldl_cons, List.filterMap_cons, he, hd, if_false, if_true,
          Bool.false_eq_true]
        exact ih et _
      · simp only [List.foldl_cons, List.filterMap_cons, he, hd, if_false,
          Bool.false_eq_true]
        exact ih et d

theorem dataFold_nonempty (d : Str) (hd : d ≠ []) : ∀ cs : List Str,
    cs.foldl (fun d c => if d = [] then c else d ++ '\n' :: c) d
      = d ++ cs.flatMap (fun c => '\n' :: c) := by
  intro cs
  induction cs generalizing d with
  | nil => simp
  | cons c cs ih =>
    rw [List.foldl_cons, if_neg hd, ih (d ++ '\n' :: c) (by simp), List.flatMap_cons,
      List.append_assoc]

theorem joinNL_cons_eq (x : Str) : ∀ xs : List Str,
    joinNL (x :: xs) = x ++ xs.flatMap (fun c => '\n' :: c) := by
  intro xs
  induction xs generalizing x with
  | nil => simp [joinNL]
  | cons y ys ih =>
    rw [joinNL, ih y, List.flatMap_cons]
    simp

theorem dataFold_eq_joinNL_dropWhile (cs : List Str) :
    dataFold cs = joinNL (cs.dropWhile (fun c => c.isEmpty)) := by
  induction cs with
  | nil => rfl
  | cons c cs ih =>
    by_cases hc : c = []
    · subst hc
      rw [dataFold, List.foldl_cons, if_pos rfl, List.dropWhile_cons_of_pos (by rfl)]
      exact ih
    · rw [dataFold, List.foldl_cons, if_pos rfl, dataFold_nonempty c hc cs,
        List.dropWhile_cons_of_neg (by simpa using hc), joinNL_cons_eq]

/-- C4 fails on the code: a block whose first `data: ` line has empty
content loses the newline separator the spec promises.  The block below has
two `data: ` lines with contents `` and `x`; the spec joins them as a
newline followed by `x`, but the decoder assembles just `x`. -/
theorem c4_counterexample :
    (dataLineContents ("event: chunk\ndata: \ndata: x".toList)).length = 2
    ∧ (blockFields ("event: chunk\ndata: \ndata: x".toList)).2
        ≠ specDataJoined ("event: chunk\ndata: \ndata: x".toList) := by
  constructor <;> decide

/-- C4 amended: the decoder assembles the payload of a block as the
contents of its `data: ` lines joined in original order with a single
newline separator, after first discarding the leading run of `data: ` lines
with empty content. -/
theorem c4_data_lines_joined_amended (part : Str) :
    (blockFields part).2
      = joinNL ((dataLineContents part).dropWhile (fun c => c.isEmpty)) := by
  rw [blockFields_snd_eq_dataFold, dataFold_eq_joinNL_dropWhile]

theorem splitNL_ne_nil (s : Str) : splitNL s ≠ [] := by
  induction s using splitNL.induct with
  | case1 => simp [splitNL]
  | case2 rest ih => simp [splitNL]
  | case3 c rest h ih => simp [splitNL, h, consHead_ne_nil]

theorem mem_dropWhile_of_neg {α : Type} (p : α → Bool) (c : α) (hp : p c = false) :
    ∀ s : List α, c ∈ s → c ∈ s.dropWhile p := by
  intro s
  induction s with
  | nil => intro h; exact absurd h (by simp)
  | cons a t ih =>
    intro h
    by_cases ha : p a = true
    · rw [List.dropWhile_cons_of_pos ha]
      rcases List.mem_cons.mp h with h1 | h1
      · subst h1; rw [hp] at ha; exact absurd ha (by simp)
      · exact ih h1
    · rw [List.dropWhile_cons_of_neg ha]
      exact h

theorem mem_trimCL (c : Char) (s : Str) (hc : c ∈ s) (hw : c.isWhitespace = false) :
    c ∈ trimCL s := by
  rw [trimCL]
  have h1 := mem_dropWhile_of_neg Char.isWhitespace c hw s hc
  have h2 : c ∈ (s.dropWhile Char.isWhitespace).reverse := List.mem_reverse.mpr h1
  have h3 := mem_dropWhile_of_neg Char.isWhitespace c hw _ h2
  exact List.mem_reverse.mpr h3

theorem mem_of_mem_splitNL (s : Str) : ∀ l ∈ splitNL s, ∀ c ∈ l, c ∈ s := by
  induction s using splitNL.induct with
  | case1 =>
    intro l hl c hc
    simp [splitNL] at hl
    subst hl
    exact absurd hc (by simp)
  | case2 rest ih =>
    intro l hl c hc
    have heq : splitNL ('\n' :: rest) = [] :: splitNL rest := by simp [splitNL]
    rw [heq] at hl
    rcases List.mem_cons.mp hl with h1 | h1
    · subst h1; exact absurd hc (by simp)
    · exact List.mem_cons_of_mem _ (ih l h1 c hc)
  | case3 c0 rest h ih =>
    intro l hl c hc
    have heq : splitNL (c0 :: rest) = consHead c0 (splitNL rest) := by simp [splitNL, h]
    rw [heq] at hl
    cases hr : splitNL rest with
    | nil => exact absurd hr (splitNL_ne_nil rest)
    | cons p ps =>
      rw [hr, consHead] at hl
      rcases List.mem_cons.mp hl with h1 | h1
      · subst h1
        rcases List.mem_cons.mp hc with h2 | h2
        · subst h2; exact List.mem_cons_self _ _
        · exact List.mem_cons_of_mem _ (ih p (by rw [hr]; exact List.mem_cons_self _ _) c h2)
      · exact List.mem_cons_of_mem _ (ih l (by rw [hr]; exact List.mem_cons_of_mem _ h1) c hc)

theorem blockFields_type_has_event_line (part : Str) (t : Str)
    (h : (blockFields part).1 = some t) :
    ∃ l ∈ splitNL part, startsWithCL l ("event: ".toList) = true := by
  rw [blockFields] at h
  generalize hls : splitNL part = lines at h
  suffices hgen : ∀ (lines : List Str) (acc : Option Str × Str),
      (lines.foldl
        (fun acc line =>
          if startsWithCL line ("event: ".toList) then
            (some (trimCL (line.drop 7)), acc.2)
          else if startsWithCL line ("data: ".toList) then
            (acc.1, if acc.2 = [] then line.drop 6 else acc.2 ++ '\n' :: line.drop 6)
          else acc)
        acc).1 = some t →
      acc.1 = some t ∨ ∃ l ∈ lines, startsWithCL l ("event: ".toList) = true by
    rcases hgen lines (none, []) h with h1 | h1
    · exact absurd h1 (by simp)
    · exact h1
  intro lines
  induction lines with
  | nil =>
    intro acc h0
    exact Or.inl h0
  | cons l ls ih =>
    intro acc h0
    rw [List.foldl_cons] at h0
    by_cases he : startsWithCL l ("event: ".toList) = true
    · exact Or.inr ⟨l, List.mem_cons_self _ _, he⟩
    · rw [if_neg he] at h0
      have hsame : (if startsWithCL l ("data: ".toList) then
          (acc.1, if acc.2 = [] then l.drop 6 else acc.2 ++ '\n' :: l.drop 6)
          else acc).1 = acc.1 := by
        by_cases hd : startsWithCL l ("data: ".toList) = true
        · rw [if_pos hd]
        · rw [if_neg hd]
      rcases ih _ h0 with h1 | h1
      · rw [hsame] at h1
        exact Or.inl h1
      · obtain ⟨l2, hl2, hl2s⟩ := h1
        exact Or.inr ⟨l2, List.mem_cons_of_mem _ hl2, hl2s⟩

theorem trimCL_ne_nil_of_type (part : Str) (t : Str)
    (h : (blockFields part).1 = some t) : trimCL part ≠ [] := by
  obtain ⟨l, hl, hls⟩ := blockFields_type_has_event_line part t h
  obtain ⟨rest, hrest⟩ := (startsWithCL_iff _ l).mp hls
  have he : 'e' ∈ l := by rw [hrest]; exact List.mem_cons_self _ _
  have hp : 'e' ∈ part := mem_of_mem_splitNL part l hl 'e' he
  have := mem_trimCL 'e' part hp (by decide)
  exact List.ne_nil_of_mem this

/-- C10: a `chunk` or `visualization` block whose assembled data payload is
the empty string produces no consumer callback (the event is silently
dropped), whereas an `error` block with an empty payload still produces a
callback invocation. -/
theorem c10_empty_payload_handling :
    (∀ part : Str,
      ((blockFields part).1 = some ("chunk".toList)
        ∨ (blockFields part).1 = some ("visualization".toList)) →
      (blockFields part).2 = [] → parseEventBlock part = [])
    ∧ (∀ part : Str, (blockFields part).1 = some ("error".toList) →
        (blockFields part).2 = [] →
        parseEventBlock part = [SSEEvent.errorEv []]
          ∧ eventCallback (SSEEvent.errorEv []) ≠ none) := by
  constructor
  · intro part ht hd
    rw [parseEventBlock]
    by_cases htrim : trimCL part = []
    · rw [if_pos htrim]
    · rw [if_neg htrim]
      rcases ht with h1 | h1
      · simp only [h1, hd, if_pos, if_true, ite_self]
      · have hne : some ("visualization".toList) ≠ some ("chunk".toList) := by decide
        simp only [h1, hd, hne, if_false, if_true]
  · intro part ht hd
    have htrim := trimCL_ne_nil_of_type part _ ht
    constructor
    · rw [parseEventBlock, if_neg htrim]
      have h1 : some ("error".toList) ≠ some ("chunk".toList) := by decide
      have h2 : some ("error".toList) ≠ some ("visualization".toList) := by decide
      simp only [ht, h1, h2, hd, if_false, if_true]
    · rw [eventCallback]
      simp

theorem c10_empty_payload_handling_witness :
    parseEventBlock ("event: chunk".toList) = []
    ∧ (parseEventBlock ("event: error".toList) = [SSEEvent.errorEv []]
        ∧ eventCallback (SSEEvent.errorEv []) ≠ none) :=
  ⟨c10_empty_payload_handling.1 ("event: chunk".toList) (Or.inl (by decide)) (by decide),
   c10_empty_payload_handling.2 ("event: error".toList) (by decide) (by decide)⟩

/-- A chat session record as held in local state.  Opaque identifiers are
modelled as natural numbers; timestamps are not modelled (no claim
concerns them). -/
structure Session where
  id : Nat
  title : Option Str
deriving DecidableEq, Repr

/-- The role of a message. -/
inductive MsgRole : Type
  | user
  | assistant
deriving DecidableEq, Repr

/-- A message record as held in local state.  `meta` carries the raw text
of a delivered visualization payload. -/
structure Message where
  id : Nat
  role : MsgRole
  content : Str
  meta : Option Str
deriving DecidableEq, Repr

/-- The local state of the `Chat` component that the claims concern. -/
structure ChatState where
  sessions : List Session
  currentSessionId : Option Nat
  messages : List Message
  inputValue : Str
  isLoading : Bool
  editingSessionId : Option Nat
  editTitle : Str
  deletingSessionId : Option Nat
deriving DecidableEq, Repr

/-- Embeds `saveRename` (lines 110-131): a no-op guard for an empty trimmed
title or a title equal to the found session's current title, then an
optimistic local update followed by the remote call, reverting to the saved
snapshot on remote failure.  The remote outcome is the parameter
`remoteOk`; the returned flag says whether a remote rename request was
issued. -/
def saveRename (st : ChatState) (remoteOk : Bool) : ChatState × Bool :=
  if trimCL st.editTitle = []
      ∨ (match st.sessions.find? (fun s => some s.id == st.editingSessionId) with
          | some s => s.title == some st.editTitle
          | none => false) = true then
    ({st with editingSessionId := none}, false)
  else
    let optimistic := {st with
      sessions := st.sessions.map
        (fun s => if some s.id == st.editingSessionId then {s with title := some st.editTitle} else s),
      editingSessionId := none}
    if remoteOk then (optimistic, true)
    else ({optimistic with sessions := st.sessions}, true)

/-- Embeds `executeDelete` (lines 153-172): nothing happens without a
pending confirmation; otherwise the session is filtered out of the local
list immediately, the active session (when it is the deleted one) is
cleared together with its message list as `handleNewChat` does, and the
remote delete is issued; a remote failure re-fetches the session list
(`refetched`) and alerts.  The returned flag says whether a remote delete
was issued. -/
def executeDelete (st : ChatState) (remoteOk : Bool) (refetched : List Session) :
    ChatState × Bool :=
  match st.deletingSessionId with
  | none => (st, false)
  | some sid =>
    let st1 := {st with deletingSessionId := none}
    let st2 := {st1 with sessions := st1.sessions.filter (fun s => s.id != sid)}
    let st3 :=
      if st2.currentSessionId = some sid then
        {st2 with currentSessionId := none, messages := [], inputValue := []}
      else st2
    if remoteOk then (st3, true) else ({st3 with sessions := refetched}, true)

/-- The update the consumer callback of `handleSendMessage` applies to one
matching message for one delivered callback event (lines 226-230): a
visualization sets `meta`; any text is appended to `content`. -/
def applyCbToMsg (cb : CbEvent) (m : Message) : Message :=
  match cb with
  | CbEvent.text t => {m with content := m.content ++ t}
  | CbEvent.viz v => {m with meta := some v}

/-- One `setMessages` call of the streaming callback (lines 223-231): map
over the list, touching only the message whose id is the assistant
placeholder id. -/
def applyCb (aid : Nat) (cb : CbEvent) (msgs : List Message) : List Message :=
  msgs.map (fun m => if m.id = aid then applyCbToMsg cb m else m)

/-- The effect of one classified event on the message list: the decoder
turns it into at most one callback invocation, which the component folds
into the list. -/
def stepMsgs (aid : Nat) (msgs : List Message) (ev : SSEEvent) : List Message :=
  match eventCallback ev with
  | none => msgs
  | some cb => applyCb aid cb msgs

/-- Folding a whole sequence of classified events into the message list in
arrival order. -/
def foldStream (aid : Nat) (evs : List SSEEvent) (msgs : List Message) : List Message :=
  evs.foldl (stepMsgs aid) msgs

/-- The effect of one classified event on a single message. -/
def stepMsg (ev : SSEEvent) (m : Message) : Message :=
  match eventCallback ev with
  | none => m
  | some cb => applyCbToMsg cb m

/-- The same fold restricted to the assistant placeholder itself. -/
def runAssistant (evs : List SSEEvent) (m : Message) : Message :=
  evs.foldl (fun m ev => stepMsg ev m) m

/-- The text one classified event contributes to the assistant content: the
decoded chunk text, nothing for a visualization, the inline marker for an
error. -/
def eventText : SSEEvent → Str
  | SSEEvent.chunkEv d => chunkCallbackText d
  | SSEEvent.vizEv _ => []
  | SSEEvent.errorEv d => errMarker d

/-- The inline text the decoder appends through the callback when the
stream fails at the transport level (line 173). -/
def connErrText : Str := "\n[Connection Error]".toList

/-- The content of the synthetic assistant failure message (line 244). -/
def errorMsgText : Str := "Error: Unable to process request.".toList

/-- Embeds `handleSendMessage` (lines 174-253) as a function of the state
and of the outcomes of its awaited effects: `t1` and `t2` are the two
`Date.now()` readings used for the temporary message ids, `newSession` is
the record a successful remote session insert returns, `createOk` whether
that insert succeeds, `events` the classified events the chat stream
delivers, `streamFails` whether the stream then ends in a transport
failure (after which the decoder appends an inline connection-error text
and the component appends a synthetic failure message with id `errId`),
and `refetched` the list a session-list refresh returns (a refresh that
itself fails leaves the list unchanged, which is the instance
`refetched = ` the current list).  The result pairs the final state with
whether a session-list refresh was issued in the `finally` block. -/
def handleSendMessage (st : ChatState) (t1 t2 : Nat) (newSession : Session)
    (createOk : Bool) (events : List SSEEvent) (streamFails : Bool)
    (errId : Nat) (refetched : List Session) : ChatState × Bool :=
  if trimCL st.inputValue = [] ∨ st.isLoading then (st, false)
  else
    let userMessage : Message := ⟨t1, MsgRole.user, st.inputValue, none⟩
    let st1 := {st with
      messages := st.messages ++ [userMessage], inputValue := [], isLoading := true}
    let created : ChatState × Bool :=
      match st1.currentSessionId with
      | none =>
        if createOk then
          ({st1 with currentSessionId := some newSession.id,
                     sessions := newSession :: st1.sessions}, true)
        else (st1, false)
      | some _ => (st1, true)
    let st3 :=
      if created.2 then
        let aid := t2 + 1
        let placeholder : Message := ⟨aid, MsgRole.assistant, [], none⟩
        let withPlaceholder := {created.1 with
          messages := created.1.messages ++ [placeholder]}
        let streamed := foldStream aid events withPlaceholder.messages
        if streamFails then
          let failed := applyCb aid (CbEvent.text connErrText) streamed ++ [⟨errId, MsgRole.assistant, errorMsgText, none⟩]
          {withPlaceholder with messages := failed}
        else {withPlaceholder with messages := streamed}
      else
        let aborted := created.1.messages ++ [⟨errId, MsgRole.assistant, errorMsgText, none⟩]
        {created.1 with messages := aborted}
    let st4 := {st3 with isLoading := false}
    if st.currentSessionId.isSome then ({st4 with sessions := refetched}, true)
    else (st4, false)

theorem applyCbToMsg_id (cb : CbEvent) (m : Message) : (applyCbToMsg cb m).id = m.id := by
  cases cb <;> rfl

theorem applyCbToMsg_role (cb : CbEvent) (m : Message) : (applyCbToMsg cb m).role = m.role := by
  cases cb <;> rfl

theorem stepMsg_id (ev : SSEEvent) (m : Message) : (stepMsg ev m).id = m.id := by
  cases h : eventCallback ev with
  | none => simp [stepMsg, h]
  | some cb => simp [stepMsg, h, applyCbToMsg_id]

theorem stepMsg_role (ev : SSEEvent) (m : Message) : (stepMsg ev m).role = m.role := by
  cases h : eventCallback ev with
  | none => simp [stepMsg, h]
  | some cb => simp [stepMsg, h, applyCbToMsg_role]

theorem runAssistant_cons (ev : SSEEvent) (evs : List SSEEvent) (m : Message) :
    runAssistant (ev :: evs) m = runAssistant evs (stepMsg ev m) := rfl

theorem runAssistant_role (evs : List SSEEvent) : ∀ m : Message,
    (runAssistant evs m).role = m.role := by
  induction evs with
  | nil => intro m; rfl
  | cons ev evs ih =>
    intro m
    rw [runAssistant_cons]
    exact (ih (stepMsg ev m)).trans (stepMsg_role ev m)

theorem stepMsg_content (ev : SSEEvent) (m : Message) :
    (stepMsg ev m).content = m.content ++ eventText ev := by
  cases ev with
  | chunkEv d => rfl
  | vizEv d =>
    by_cases h : (jsonParse d).isSome
    · simp [stepMsg, eventCallback, h, applyCbToMsg, eventText]
    · simp [stepMsg, eventCallback, h, eventText]
  | errorEv d => rfl

theorem runAssistant_content (evs : List SSEEvent) : ∀ m : Message,
    (runAssistant evs m).content = m.content ++ (evs.map eventText).flatten := by
  induction evs with
  | nil => intro m; simp [runAssistant]
  | cons ev evs ih =>
    intro m
    rw [runAssistant_cons, ih (stepMsg ev m), stepMsg_content, List.map_cons,
      List.flatten_cons, List.append_assoc]

theorem map_untouched (aid : Nat) (cb : CbEvent) : ∀ pre : List Message,
    (∀ p ∈ pre, p.id ≠ aid) →
    pre.map (fun m => if m.id = aid then applyCbToMsg cb m else m) = pre := by
  intro pre
  induction pre with
  | nil => intro _; rfl
  | cons p ps ih =>
    intro h
    rw [List.map_cons, if_neg (h p (List.mem_cons_self _ _)),
      ih (fun q hq => h q (List.mem_cons_of_mem _ hq))]

theorem applyCb_frame (aid : Nat) (cb : CbEvent) (pre : List Message) (m : Message)
    (hpre : ∀ p ∈ pre, p.id ≠ aid) (hm : m.id = aid) :
    applyCb aid cb (pre ++ [m]) = pre ++ [applyCbToMsg cb m] := by
  rw [applyCb, List.map_append, map_untouched aid cb pre hpre]
  simp [hm]

theorem stepMsgs_frame (aid : Nat) (ev : SSEEvent) (pre : List Message) (m : Message)
    (hpre : ∀ p ∈ pre, p.id ≠ aid) (hm : m.id = aid) :
    stepMsgs aid (pre ++ [m]) ev = pre ++ [stepMsg ev m] := by
  cases h : eventCallback ev with
  | none => simp [stepMsgs, stepMsg, h]
  | some cb => simp [stepMsgs, stepMsg, h, applyCb_frame aid cb pre m hpre hm]

theorem foldStream_cons (aid : Nat) (ev : SSEEvent) (evs : List SSEEvent)
    (msgs : List Message) :
    foldStream aid (ev :: evs) msgs = foldStream aid evs (stepMsgs aid msgs ev) := rfl

theorem foldStream_frame (aid : Nat) (evs : List SSEEvent) :
    ∀ (pre : List Message) (m : Message),
    (∀ p ∈ pre, p.id ≠ aid) → m.id = aid →
    foldStream aid evs (pre ++ [m]) = pre ++ [runAssistant evs m] := by
  induction evs with
  | nil => intro pre m _ _; rfl
  | cons ev evs ih =>
    intro pre m hpre hm
    rw [foldStream_cons, stepMsgs_frame aid ev pre m hpre hm, runAssistant_cons]
    exact ih pre (stepMsg ev m) hpre ((stepMsg_id ev m).trans hm)

/-- C5: a rename attempt whose trimmed new title is empty, or whose new
title equals the target session's current title, is a no-op: the local
session list is not mutated and no remote rename request is issued. -/
theorem c5_rename_noop (st : ChatState) (remoteOk : Bool)
    (h : trimCL st.editTitle = []
      ∨ ∃ s : Session,
          st.sessions.find? (fun s => some s.id == st.editingSessionId) = some s
          ∧ s.title = some st.editTitle) :
    (saveRename st remoteOk).1.sessions = st.sessions
      ∧ (saveRename st remoteOk).2 = false := by
  have hg : trimCL st.editTitle = []
      ∨ (match st.sessions.find? (fun s => some s.id == st.editingSessionId) with
          | some s => s.title == some st.editTitle
          | none => false) = true := by
    rcases h with h1 | ⟨s, hs, ht⟩
    · exact Or.inl h1
    · right
      rw [hs]
      simp [ht]
  rw [saveRename, if_pos hg]
  exact ⟨rfl, rfl⟩

theorem c5_rename_noop_witness :
    (saveRename ⟨[⟨1, some ("t".toList)⟩], none, [], [], false, some 1, "t".toList, none⟩
        true).1.sessions = [⟨1, some ("t".toList)⟩]
    ∧ (saveRename ⟨[⟨1, some ("t".toList)⟩], none, [], [], false, some 1, "t".toList, none⟩
        true).2 = false :=
  c5_rename_noop _ true (Or.inr ⟨⟨1, some ("t".toList)⟩, by decide, by decide⟩)

/-- C6: a rename whose remote update fails leaves the local session list at
its exact pre-rename snapshot (the optimistic update is reverted), so the
renamed session ends with the title text it had before. -/
theorem c6_rename_remote_failure_reverts (st : ChatState) :
    (saveRename st false).1.sessions = st.sessions := by
  by_cases hg : trimCL st.editTitle = []
      ∨ (match st.sessions.find? (fun s => some s.id == st.editingSessionId) with
          | some s => s.title == some st.editTitle
          | none => false) = true
  · rw [saveRename, if_pos hg]
  · rw [saveRename, if_neg hg]
    simp

/-- C7: a confirmed delete of the currently active session removes it from
the local session list, clears the active session id and clears the local
message list. -/
theorem c7_delete_active_clears (st : ChatState) (sid : Nat) (refetched : List Session)
    (h1 : st.deletingSessionId = some sid) (h2 : st.currentSessionId = some sid) :
    (executeDelete st true refetched).1.sessions
        = st.sessions.filter (fun s => s.id != sid)
    ∧ (executeDelete st true refetched).1.currentSessionId = none
    ∧ (executeDelete st true refetched).1.messages = [] := by
  refine ⟨?_, ?_, ?_⟩ <;> simp [executeDelete, h1, h2]

theorem c7_delete_active_clears_witness :
    (executeDelete ⟨[⟨1, none⟩, ⟨2, none⟩], some 1,
        [⟨0, MsgRole.user, "m".toList, none⟩], [], false, none, [], some 1⟩ true []).1.sessions
      = List.filter (fun s => s.id != 1) [⟨1, none⟩, ⟨2, none⟩]
    ∧ (executeDelete ⟨[⟨1, none⟩, ⟨2, none⟩], some 1,
        [⟨0, MsgRole.user, "m".toList, none⟩], [], false, none, [], some 1⟩ true []).1.currentSessionId
      = none
    ∧ (executeDelete ⟨[⟨1, none⟩, ⟨2, none⟩], some 1,
        [⟨0, MsgRole.user, "m".toList, none⟩], [], false, none, [], some 1⟩ true []).1.messages
      = [] :=
  c7_delete_active_clears _ 1 [] (by decide) (by decide)

/-- C8: a send that passes the input guard issues a session-list refresh in
its `finally` step if and only if a session was already active before the
send began; in particular the very first message of a brand-new session
issues no refresh even though it created and activated a session. -/
theorem c8_refresh_iff_preexisting (st : ChatState) (t1 t2 : Nat) (ns : Session)
    (createOk : Bool) (events : List SSEEvent) (streamFails : Bool) (errId : Nat)
    (refetched : List Session)
    (h1 : trimCL st.inputValue ≠ []) (h2 : st.isLoading = false) :
    (handleSendMessage st t1 t2 ns createOk events streamFails errId refetched).2
      = st.currentSessionId.isSome := by
  rw [handleSendMessage, if_neg (by simp [h1, h2])]
  by_cases h3 : st.currentSessionId.isSome
  · simp only [h3, if_true, if_pos]
  · simp only [Bool.not_eq_true] at h3
    simp [h3]

theorem c8_refresh_iff_preexisting_witness :
    (handleSendMessage ⟨[⟨1, none⟩], some 1, [], "q".toList, false, none, [], none⟩
        3 4 ⟨7, none⟩ true [] false 9 [⟨1, some ("t".toList)⟩]).2
      = (some 1 : Option Nat).isSome :=
  c8_refresh_iff_preexisting _ 3 4 ⟨7, none⟩ true [] false 9 [⟨1, some ("t".toList)⟩]
    (by decide) (by decide)

theorem sendPre_fresh (st : ChatState) (t1 t2 : Nat)
    (h4 : ∀ m ∈ st.messages, m.id ≠ t2 + 1) (h5 : t1 ≠ t2 + 1) :
    ∀ p ∈ st.messages ++ [(⟨t1, MsgRole.user, st.inputValue, none⟩ : Message)],
      p.id ≠ t2 + 1 := by
  intro p hp
  rcases List.mem_append.mp hp with hh | hh
  · exact h4 p hh
  · have hp2 : p = ⟨t1, MsgRole.user, st.inputValue, none⟩ := by simpa using hh
    rw [hp2]
    exact h5

theorem sendMessages_success (st : ChatState) (t1 t2 : Nat) (ns : Session)
    (events : List SSEEvent) (errId : Nat) (refetched : List Session)
    (h1 : trimCL st.inputValue ≠ []) (h2 : st.isLoading = false)
    (h4 : ∀ m ∈ st.messages, m.id ≠ t2 + 1) (h5 : t1 ≠ t2 + 1) :
    (handleSendMessage st t1 t2 ns true events false errId refetched).1.messages
      = st.messages ++ [⟨t1, MsgRole.user, st.inputValue, none⟩,
          runAssistant events ⟨t2 + 1, MsgRole.assistant, [], none⟩] := by
  have hframe := foldStream_frame (t2 + 1) events
    (st.messages ++ [⟨t1, MsgRole.user, st.inputValue, none⟩])
    ⟨t2 + 1, MsgRole.assistant, [], none⟩ (sendPre_fresh st t1 t2 h4 h5) rfl
  rw [handleSendMessage, if_neg (by simp [h1, h2])]
  cases hcs : st.currentSessionId with
  | none =>
    simp only [hcs, Option.isSome_none, Bool.false_eq_true, if_false, if_true]
    rw [hframe]
    simp
  | some sid =>
    simp only [hcs, Option.isSome_some, if_true]
    rw [hframe]
    simp

theorem sendSessions_new_success (st : ChatState) (t1 t2 : Nat) (ns : Session)
    (events : List SSEEvent) (errId : Nat) (refetched : List Session)
    (h1 : trimCL st.inputValue ≠ []) (h2 : st.isLoading = false)
    (h3 : st.currentSessionId = none) :
    (handleSendMessage st t1 t2 ns true events false errId refetched).1.sessions
      = ns :: st.sessions := by
  rw [handleSendMessage, if_neg (by simp [h1, h2])]
  simp only [h3, Option.isSome_none, Bool.false_eq_true, if_false, if_true]

/-- C2: a send with nonempty input while no session is active, whose
session creation and stream both succeed, leaves exactly one new session at
the head of the session list and exactly two new messages appended at the
end of the message list, the first with role `user` carrying the input text
and the second with role `assistant`, in that order.  The freshness
hypotheses on the two time-derived temporary ids reflect the
`Date.now()`-based id generation of the source. -/
theorem c2_first_send_shapes (st : ChatState) (t1 t2 : Nat) (ns : Session)
    (events : List SSEEvent) (errId : Nat) (refetched : List Session)
    (h1 : trimCL st.inputValue ≠ []) (h2 : st.isLoading = false)
    (h3 : st.currentSessionId = none)
    (h4 : ∀ m ∈ st.messages, m.id ≠ t2 + 1) (h5 : t1 ≠ t2 + 1) :
    (handleSendMessage st t1 t2 ns true events false errId refetched).1.sessions
        = ns :: st.sessions
    ∧ ∃ m : Message,
        (handleSendMessage st t1 t2 ns true events false errId refetched).1.messages
          = st.messages ++ [⟨t1, MsgRole.user, st.inputValue, none⟩, m]
        ∧ m.role = MsgRole.assistant :=
  ⟨sendSessions_new_success st t1 t2 ns events errId refetched h1 h2 h3,
   ⟨runAssistant events ⟨t2 + 1, MsgRole.assistant, [], none⟩,
     sendMessages_success st t1 t2 ns events errId refetched h1 h2 h4 h5,
     runAssistant_role events _⟩⟩

theorem c2_first_send_shapes_witness :
    (handleSendMessage ⟨[], none, [], "hello".toList, false, none, [], none⟩
        3 4 ⟨7, none⟩ true [SSEEvent.chunkEv ("hi".toList)] false 9 []).1.sessions
        = ⟨7, none⟩ :: []
    ∧ ∃ m : Message,
        (handleSendMessage ⟨[], none, [], "hello".toList, false, none, [], none⟩
            3 4 ⟨7, none⟩ true [SSEEvent.chunkEv ("hi".toList)] false 9 []).1.messages
          = [] ++ [⟨3, MsgRole.user, "hello".toList, none⟩, m]
        ∧ m.role = MsgRole.assistant :=
  c2_first_send_shapes ⟨[], none, [], "hello".toList, false, none, [], none⟩
    3 4 ⟨7, none⟩ [SSEEvent.chunkEv ("hi".toList)] 9 []
    (by decide) (by decide) (by decide) (by intro m hm; simp at hm) (by decide)

/-- C3: the assistant placeholder content after a successful streaming send
is the concatenation, in arrival order, of the text contributed by each
delivered event (a chunk appends its decoded text), and the whole send
outcome is unchanged under any re-splitting of the underlying network
reads. -/
theorem c3_chunk_append_order (st : ChatState) (t1 t2 : Nat) (ns : Session)
    (errId : Nat) (refetched : List Session) (cs cs' : List Str)
    (h1 : trimCL st.inputValue ≠ []) (h2 : st.isLoading = false)
    (h4 : ∀ m ∈ st.messages, m.id ≠ t2 + 1) (h5 : t1 ≠ t2 + 1)
    (hjoin : cs.flatten = cs'.flatten) :
    handleSendMessage st t1 t2 ns true (decodeChunks cs) false errId refetched
      = handleSendMessage st t1 t2 ns true (decodeChunks cs') false errId refetched
    ∧ ∃ m : Message,
        (handleSendMessage st t1 t2 ns true (decodeChunks cs) false errId
            refetched).1.messages
          = st.messages ++ [⟨t1, MsgRole.user, st.inputValue, none⟩, m]
        ∧ m.content = ((decodeChunks cs).map eventText).flatten := by
  constructor
  · rw [decodeChunks_eq cs, decodeChunks_eq cs', hjoin]
  · refine ⟨runAssistant (decodeChunks cs) ⟨t2 + 1, MsgRole.assistant, [], none⟩,
      sendMessages_success st t1 t2 ns (decodeChunks cs) errId refetched h1 h2 h4 h5, ?_⟩
    rw [runAssistant_content]
    simp

theorem c3_chunk_append_order_witness :
    (handleSendMessage ⟨[], none, [], "q".toList, false, none, [], none⟩
        3 4 ⟨7, none⟩ true
        (decodeChunks ["event: chunk\ndata: \"A\"\n\nevent: chunk\ndata: \"B\"\n\nev".toList,
          "ent: chunk\ndata: \"C\"\n\n".toList]) false 9 []
      = handleSendMessage ⟨[], none, [], "q".toList, false, none, [], none⟩
        3 4 ⟨7, none⟩ true
        (decodeChunks ["event: chunk\ndata: \"A\"\n\nevent: chunk\ndata: \"B\"\n\nevent: chunk\ndata: \"C\"\n\n".toList]) false 9 [])
    ∧ ∃ m : Message,
        (handleSendMessage ⟨[], none, [], "q".toList, false, none, [], none⟩
            3 4 ⟨7, none⟩ true
            (decodeChunks ["event: chunk\ndata: \"A\"\n\nevent: chunk\ndata: \"B\"\n\nev".toList,
              "ent: chunk\ndata: \"C\"\n\n".toList]) false 9 []).1.messages
          = [] ++ [⟨3, MsgRole.user, "q".toList, none⟩, m]
        ∧ m.content = ((decodeChunks ["event: chunk\ndata: \"A\"\n\nevent: chunk\ndata: \"B\"\n\nev".toList,
            "ent: chunk\ndata: \"C\"\n\n".toList]).map eventText).flatten :=
  c3_chunk_append_order ⟨[], none, [], "q".toList, false, none, [], none⟩
    3 4 ⟨7, none⟩ 9 []
    ["event: chunk\ndata: \"A\"\n\nevent: chunk\ndata: \"B\"\n\nev".toList,
      "ent: chunk\ndata: \"C\"\n\n".toList]
    ["event: chunk\ndata: \"A\"\n\nevent: chunk\ndata: \"B\"\n\nevent: chunk\ndata: \"C\"\n\n".toList]
    (by decide) (by decide) (by intro m hm; simp at hm) (by decide) (by decide)
